import Mathlib

/-!
Verification development for the `sql-data-api-client-js` repository.

The definitions below are a shallow embedding of `src/sql-data.api.ts`
(together with the `JoinType`/`TableJoinDto` declarations of
`src/db-types.ts`).  JavaScript strings are modelled as `List Char`
(`JStr`), JavaScript records as association lists that preserve key
order, absent (`undefined`) values as `Option`, and thrown exceptions as
the `Except` error component.  External collaborators (the `axios`
transport, the `datapipe-js` `toTable`/`fromTable`/`dateToString`
helpers and the built-in `JSON.stringify`) are modelled by explicit
parameters or by small executable stand-ins, as noted at each use site.
-/

namespace SqlDataApiClient

/-- JavaScript strings, modelled as lists of characters so that the
character-index arithmetic of `String.prototype.indexOf` /
`lastIndexOf` / `substring` can be embedded directly. -/
abbrev JStr := List Char

/-! ## Scalar values and primitive coercion (`toPrimitive`, sql-data.api.ts lines 864-880)

`ScalarType` of `datapipe-js` covers null, booleans, numbers, strings,
`Date` objects and (nested) arrays of these.  A `Date` is modelled by
its epoch timestamp.  `ScalarList` is a specialised list type so that
every definition below is structurally recursive (and hence evaluates
inside the kernel). -/

mutual

/-- Model of the `ScalarType` values handled by `toPrimitive`: null,
boolean, number, string, `Date` (by timestamp) and nested arrays. -/
inductive ScalarV where
  | vNull
  | vBool (b : Bool)
  | vNum (n : Int)
  | vStr (s : String)
  | vDate (d : Int)
  | vArr (xs : ScalarList)
deriving Repr, DecidableEq

/-- Lists of `ScalarV`, as a mutual inductive so that recursion over
nested arrays stays structural. -/
inductive ScalarList where
  | nil
  | cons (hd : ScalarV) (tl : ScalarList)
deriving Repr, DecidableEq

end

/-- Generic element-wise map over a `ScalarList`; used to state that
`toPrimitive` treats arrays element-wise. -/
def ScalarList.map (f : ScalarV → ScalarV) : ScalarList → ScalarList
  | .nil => .nil
  | .cons v vs => .cons (f v) (ScalarList.map f vs)

/-- Model of the external `dateToString` helper of `datapipe-js/utils`
(an external collaborator per spec §1); the claims proved below depend
only on dates being sent through it, never on the exact text, so a
simple executable stand-in is used. -/
def dateToString (d : Int) : String := toString d

mutual

/-- Inner `scalarToPrimitive` closure of `SqlDataApi.toPrimitive`
(sql-data.api.ts lines 865-872): arrays are mapped recursively, a
`Date` becomes the string `dt(<dateToString date>)`, all other scalars
pass through unchanged. -/
def scalarToPrimitive : ScalarV → ScalarV
  | .vArr xs => .vArr (scalarListToPrimitive xs)
  | .vDate d => .vStr ("dt(" ++ dateToString d ++ ")")
  | .vNull => .vNull
  | .vBool b => .vBool b
  | .vNum n => .vNum n
  | .vStr s => .vStr s

/-- Element-wise action of `scalarToPrimitive` on an array value
(`val.map((v) => scalarToPrimitive(v))` in the source). -/
def scalarListToPrimitive : ScalarList → ScalarList
  | .nil => .nil
  | .cons v vs => .cons (scalarToPrimitive v) (scalarListToPrimitive vs)

end

/-- JavaScript record (object) with `ScalarV` values: an association
list preserving the key order of `Object.keys`. -/
abbrev JRecord := List (String × ScalarV)

/-- Model of `SqlDataApi.toPrimitive` (sql-data.api.ts lines 864-880):
applies `scalarToPrimitive` to every value of the record, keeping keys
and their order. -/
def toPrimitive (obj : JRecord) : JRecord :=
  obj.map (fun kv => (kv.1, scalarToPrimitive kv.2))

mutual

/-- Decides that a scalar value contains no `Date` anywhere (used to
state idempotence of coercion). -/
def noDate : ScalarV → Bool
  | .vDate _ => false
  | .vArr xs => noDateList xs
  | .vNull => true
  | .vBool _ => true
  | .vNum _ => true
  | .vStr _ => true

/-- List version of `noDate`. -/
def noDateList : ScalarList → Bool
  | .nil => true
  | .cons v vs => noDate v && noDateList vs

end

/-! ## Name/alias parser (`extractNameAndAlias`, sql-data.api.ts lines 919-939) -/

/-- Whitespace recognised by the model of `String.prototype.trim`. -/
def isWs (c : Char) : Bool := c == ' ' || c == '\t' || c == '\n' || c == '\r'

/-- Model of `String.prototype.trim`: drop whitespace from both ends. -/
def trimJ (s : JStr) : JStr :=
  ((s.dropWhile isWs).reverse.dropWhile isWs).reverse

/-- Model of `s.indexOf(" ")`: the character index of the first space,
`-1` when there is none (as an `Option`). -/
def idxOfSpace (s : JStr) : Option Nat := s.findIdx? (· == ' ')

/-- Model of `s.lastIndexOf(" ")`: the character index of the last
space, when one exists. -/
def lastIdxOfSpace (s : JStr) : Option Nat :=
  (s.reverse.findIdx? (· == ' ')).map (fun k => s.length - 1 - k)

/-- Result type of `extractNameAndAlias`: a table/view name together
with an optional alias. -/
structure NameAlias where
  name : JStr
  aliasName : Option JStr
deriving Repr, DecidableEq

/-- The `tableOrViewWithAlias.indexOf(" ") > 0` test evaluated by both
fields of the returned object literal. -/
def hasSpaceAtPos (t : JStr) : Bool :=
  match idxOfSpace t with
  | some i => decide (0 < i)
  | none => false

/-- Model of the local function `extractNameAndAlias` inside
`_queryTable` (sql-data.api.ts lines 919-939).  The input is trimmed
first (the parameter is reassigned); when the trimmed string contains a
space at a positive index, the name is
`substring(0, indexOf(" ")).trim()` and the alias is
`substring(lastIndexOf(" ")).trim()`; otherwise the alias is absent and
the name is the (re-)trimmed input. -/
def extractNameAndAlias (tableOrViewWithAlias : JStr) : NameAlias :=
  { name :=
      if hasSpaceAtPos (trimJ tableOrViewWithAlias) then
        trimJ ((trimJ tableOrViewWithAlias).take
          ((idxOfSpace (trimJ tableOrViewWithAlias)).getD 0))
      else trimJ (trimJ tableOrViewWithAlias),
    aliasName :=
      if hasSpaceAtPos (trimJ tableOrViewWithAlias) then
        some (trimJ ((trimJ tableOrViewWithAlias).drop
          ((lastIdxOfSpace (trimJ tableOrViewWithAlias)).getD 0)))
      else none }

/-! ## Query translator (`_queryTable`, sql-data.api.ts lines 895-981)

Only the request-shaping part of `_queryTable` is embedded here: the
URL/authentication plumbing and the network call that follow it are the
transport collaborator, and the fluent `query` front end is modelled
separately below with the callee outcome as a parameter. -/

/-- JavaScript `||` on an optional string: keeps the string when it is
present and non-empty (truthy), otherwise falls through. -/
def jsOrStr (x : Option JStr) (y : JStr) : JStr :=
  match x with
  | some s => if s.isEmpty then y else s
  | none => y

/-- Models `x || undefined` for a string-valued field: empty and absent
strings both become `undefined`. -/
def strOrUndefined (x : Option JStr) : Option JStr :=
  match x with
  | some s => if s.isEmpty then none else some s
  | none => none

/-- Models `x || undefined` for a number-valued field: `0` and absence
both become `undefined` (the JavaScript number `0` is falsy). -/
def numOrUndefined (x : Option Int) : Option Int :=
  match x with
  | some n => if n = 0 then none else some n
  | none => none

/-- `JoinType` enum of src/db-types.ts lines 112-117. -/
inductive JoinType where
  | innerJoin
  | leftJoin
  | rightJoin
  | fullJoin
deriving Repr, DecidableEq

/-- `TableJoinDto` of src/db-types.ts lines 119-125. -/
structure TableJoinDto where
  tableName : JStr
  tableAlias : Option JStr
  joinType : JoinType
  joinCondition : JStr
  joinCondition2 : Option JStr
deriving Repr, DecidableEq

/-- One entry of `SqlReadQueryInfo.joins`: the positional tuple
`[JoinType, string, string, string?]` (sql-data.api.ts line 94). -/
structure JoinEntry where
  joinType : JoinType
  tableOrViewWithAlias : JStr
  joinCondition : JStr
  joinCondition2 : Option JStr
deriving Repr, DecidableEq

/-- `SqlReadQueryInfo` (sql-data.api.ts lines 43-95); every field is
optional. -/
structure SqlReadQueryInfo where
  fields : Option JStr := none
  filter : Option JStr := none
  filterParams : Option JRecord := none
  skip : Option Int := none
  top : Option Int := none
  orderBy : Option JStr := none
  mainTableAlias : Option JStr := none
  joins : Option (List JoinEntry) := none
deriving Repr, DecidableEq

/-- The empty query info `{}` (fresh builder state). -/
def emptyQueryInfo : SqlReadQueryInfo := {}

/-- Second argument of `query`/`_queryTable`: either a field-list string
or a `SqlReadQueryInfo` object. -/
abbrev FieldsOrQuery := JStr ⊕ SqlReadQueryInfo

/-- `RequestSqlQueryInfo` (sql-data.api.ts lines 1033-1042), the wire
request assembled by `_queryTable`; `none` models a field set to
`undefined`, which `JSON.stringify` omits from the payload. -/
structure RequestSqlQueryInfo where
  select : Option JStr
  filterString : Option JStr
  filterParameters : Option JRecord
  skip : Option Int
  top : Option Int
  orderBy : Option JStr
  mainTableAlias : Option JStr
  tablesJoin : Option (List TableJoinDto)
deriving Repr, DecidableEq

/-- Local `join` helper of `_queryTable` (sql-data.api.ts lines
941-957): parses the table-with-alias of one `JoinEntry` and emits the
corresponding `TableJoinDto`. -/
def mkTableJoin (j : JoinEntry) : TableJoinDto :=
  let nameAlias := extractNameAndAlias j.tableOrViewWithAlias
  { joinType := j.joinType,
    tableAlias := nameAlias.aliasName,
    tableName := nameAlias.name,
    joinCondition := j.joinCondition,
    joinCondition2 := j.joinCondition2 }

/-- Request-shaping part of `_queryTable` (sql-data.api.ts lines
904-981): resolves the effective query info and field list, parses the
main table name/alias, builds the join list, coerces filter parameters
and assembles the `RequestSqlQueryInfo`, turning falsy source values
into `undefined` exactly as the source does with `||` chains. -/
def buildQueryRequest (tableOrViewName : JStr)
    (fieldsOrQuery : Option FieldsOrQuery)
    (queryInfoSettings : Option SqlReadQueryInfo) : RequestSqlQueryInfo :=
  let queryInfo : SqlReadQueryInfo :=
    match queryInfoSettings with
    | some q => q
    | none =>
      match fieldsOrQuery with
      | some (.inr q) => q
      | _ => emptyQueryInfo
  let fields : Option JStr :=
    match fieldsOrQuery with
    | some (.inl s) =>
      if !s.isEmpty && s ≠ "*".toList then some s else queryInfo.fields
    | _ => queryInfo.fields
  let mainTable := extractNameAndAlias tableOrViewName
  let tablesJoin : List TableJoinDto := (queryInfo.joins.getD []).map mkTableJoin
  let filterParams : Option JRecord := queryInfo.filterParams.map toPrimitive
  { select :=
      match fields with
      | some s => if s.isEmpty then none else some s
      | none => none,
    filterString := strOrUndefined queryInfo.filter,
    filterParameters := filterParams,
    skip := numOrUndefined queryInfo.skip,
    top := numOrUndefined queryInfo.top,
    orderBy := strOrUndefined queryInfo.orderBy,
    mainTableAlias :=
      strOrUndefined (some (jsOrStr mainTable.aliasName
        (jsOrStr queryInfo.mainTableAlias []))),
    tablesJoin := if tablesJoin.isEmpty then none else some tablesJoin }

/-! ## Fluent `query` method (sql-data.api.ts lines 449-465)

The method computes its effective arguments from the builder state,
awaits the private `_query` (modelled as the parameter `runQuery`, since
its body is the translator above followed by the transport collaborator)
and then assigns `this.queryInfo = {}`.  When the awaited call rejects,
the exception propagates and the assignment is not reached, so the model
returns the updated builder state alongside the call outcome. -/

/-- Models `Object.keys(this.queryInfo).length` being non-zero.  (A key
assigned `undefined` by a fluent setter would still count in
JavaScript; the distinction does not affect the reset behaviour proved
below, which holds for every value of this test.) -/
def queryInfoHasKeys (q : SqlReadQueryInfo) : Bool :=
  q.fields.isSome || q.filter.isSome || q.filterParams.isSome ||
  q.skip.isSome || q.top.isSome || q.orderBy.isSome ||
  q.mainTableAlias.isSome || q.joins.isSome

/-- The tail of the `query` method around the `await`: a fulfilled
`_query` is followed by the `this.queryInfo = {}` assignment, while a
rejected one propagates the exception before the assignment is reached,
leaving the builder state untouched. -/
def queryMethodCore (queryInfo : SqlReadQueryInfo)
    (outcome : Except String (List JRecord)) :
    Except String (List JRecord) × SqlReadQueryInfo :=
  match outcome with
  | .ok result => (.ok result, emptyQueryInfo)
  | .error e => (.error e, queryInfo)

/-- Model of `SqlDataApi.query` (sql-data.api.ts lines 449-465) acting
on the builder state `queryInfo` and the instance field `tableName`.
`runQuery` is the private `_query` call, abstracted over its
network outcome; the second component of the result is the value of
`this.queryInfo` after the call returns or throws. -/
def queryMethod (queryInfo : SqlReadQueryInfo) (tableName : JStr)
    (tableOrViewName : Option JStr) (fieldsOrQuery : Option FieldsOrQuery)
    (queryInfoSettings : Option SqlReadQueryInfo)
    (runQuery : JStr → Option FieldsOrQuery → Option SqlReadQueryInfo →
      Except String (List JRecord)) :
    Except String (List JRecord) × SqlReadQueryInfo :=
  let qInfo : Option SqlReadQueryInfo :=
    if queryInfoHasKeys queryInfo then some queryInfo else none
  let effTable : JStr := jsOrStr tableOrViewName tableName
  let effFieldsOrQuery : Option FieldsOrQuery :=
    match fieldsOrQuery with
    | some (.inl s) =>
      if s.isEmpty then queryInfo.fields.map Sum.inl else some (.inl s)
    | some (.inr q) => some (.inr q)
    | none => queryInfo.fields.map Sum.inl
  let effSettings : Option SqlReadQueryInfo :=
    match queryInfoSettings with
    | some q => some q
    | none => qInfo
  queryMethodCore queryInfo (runQuery effTable effFieldsOrQuery effSettings)

/-! ## Result/error normalizer (`httpRequest`, sql-data.api.ts lines 204-252)

The axios transport resolves with a response object or rejects with an
error that may or may not carry a `response`.  Both outcomes are values
of `TransportOutcome`; `httpRequest`'s two `then` callbacks map them to
the uniform `ServerResponse` envelope.  JSON-ish JavaScript values are
modelled by `JsVal` (a mutual inductive so recursion stays structural);
arrays are not needed by any claim and are not modelled. -/

mutual

/-- JavaScript values occurring in transport responses: `null`,
booleans, numbers, strings and objects. -/
inductive JsVal where
  | jNull
  | jBool (b : Bool)
  | jNum (n : Int)
  | jStr (s : String)
  | jObj (fields : JsFields)
deriving Repr, DecidableEq

/-- Ordered field list of a JavaScript object. -/
inductive JsFields where
  | nil
  | cons (key : String) (val : JsVal) (tl : JsFields)
deriving Repr, DecidableEq

end

/-- JavaScript truthiness of a `JsVal`: `null`, `false`, `0` and `""`
are falsy; every object is truthy. -/
def truthy : JsVal → Bool
  | .jNull => false
  | .jBool b => b
  | .jNum n => decide (n ≠ 0)
  | .jStr s => !(s == "")
  | .jObj _ => true

/-- Property lookup on an object's field list. -/
def getField (key : String) : JsFields → Option JsVal
  | .nil => none
  | .cons k v tl => if k = key then some v else getField key tl

mutual

/-- Executable stand-in for the built-in `JSON.stringify` on `JsVal`
(string escaping is not modelled; no claim depends on the exact text,
only on stringification being applied to structured values). -/
def jsonStringify : JsVal → String
  | .jNull => "null"
  | .jBool b => if b then "true" else "false"
  | .jNum n => toString n
  | .jStr s => "\"" ++ s ++ "\""
  | .jObj fs => "\x7b" ++ jsonStringifyFields fs ++ "\x7d"

/-- Comma-separated `"key":value` rendering of an object's fields. -/
def jsonStringifyFields : JsFields → String
  | .nil => ""
  | .cons k v .nil => "\"" ++ k ++ "\":" ++ jsonStringify v
  | .cons k v (.cons k2 v2 tl) =>
    "\"" ++ k ++ "\":" ++ jsonStringify v ++ "," ++
      jsonStringifyFields (.cons k2 v2 tl)

end

/-- JavaScript `||`: keeps the left value when present and truthy,
otherwise yields the right value. -/
def jsOrVal (a : Option JsVal) (b : JsVal) : JsVal :=
  match a with
  | some v => if truthy v then v else b
  | none => b

/-- The `response` object carried by a rejected axios call; every field
may be absent (`e.response || {}` supplies the empty object when the
whole response is missing). -/
structure FailResponse where
  data : Option JsVal := none
  status : Option Int := none
  statusText : Option String := none
deriving Repr, DecidableEq

/-- Models `(response.data || {}).message`: only a (necessarily truthy)
object body has a `message` property; a falsy or primitive body yields
`undefined`. -/
def messageOfData : Option JsVal → Option JsVal
  | some (.jObj fs) => getField "message" fs
  | _ => none

/-- The `typeof x === "object"` test of the source (objects and `null`
both have `typeof` `"object"` in JavaScript). -/
def isObjectType : JsVal → Bool
  | .jObj _ => true
  | .jNull => true
  | _ => false

/-- Error-message extraction of the rejection callback (sql-data.api.ts
lines 233-241): structured `message` field, else the raw body, else the
transport status text, else the literal `"Http Connection Error"`;
stringified when the chosen value is structured. -/
def extractErrorMessage (r : FailResponse) : JsVal :=
  let errorMessage :=
    jsOrVal (messageOfData r.data)
      (jsOrVal r.data
        (jsOrVal (r.statusText.map .jStr) (.jStr "Http Connection Error")))
  if isObjectType errorMessage then .jStr (jsonStringify errorMessage)
  else errorMessage

/-- The `ServerResponse` envelope (sql-data.api.ts lines 1025-1031). -/
structure ServerResponse where
  data : Option JsVal
  isOk : Bool
  status : Option Int
  statusText : Option String
  errorMessage : Option JsVal
deriving Repr, DecidableEq

/-- Outcome of one axios call: fulfilled with a response, or rejected
with an error optionally carrying a partial response. -/
inductive TransportOutcome where
  | fulfilled (status : Int) (statusText : String) (data : Option JsVal)
  | rejected (response : Option FailResponse)
deriving Repr, DecidableEq

/-- Model of `httpRequest`'s result normalization (sql-data.api.ts lines
222-252): a total function on transport outcomes — both axios callbacks
return an envelope, so nothing is thrown across this boundary. -/
def httpRequest : TransportOutcome → ServerResponse
  | .fulfilled status statusText data =>
    { data := data, isOk := true, status := some status,
      statusText := some statusText, errorMessage := none }
  | .rejected response =>
    let r := response.getD {}
    { isOk := false, status := r.status, statusText := r.statusText,
      data := none, errorMessage := some (extractErrorMessage r) }

/-- The envelope-to-exception step shared by every public operation
built on `httpRequest` (`if (!r.errorMessage) return r.data; throw new
Error(r.errorMessage)` in `httpGet`/`httpPost`/… lines 258-263 and `if
(res.errorMessage) throw new Error(res.errorMessage)` in the
`SqlDataApi` methods). -/
def throwIfError (r : ServerResponse) : Except JsVal (Option JsVal) :=
  match r.errorMessage with
  | some m => if truthy m then .error m else .ok r.data
  | none => .ok r.data

/-! ## Batch persistence engine (`saveData`, sql-data.api.ts lines 732-862)

The engine is embedded over an abstract row type `Row` (the positional
rows produced by the external `datapipe-js` `toTable`, which converts
one item to one row in order; the model therefore identifies the rows
of `toTable(items)` with the items themselves and takes the extracted
`fieldNames` as a parameter).  `rowSize` models the external
`JSON.stringify(row).length`, and `respond k` models the server's
answer to the `k`-th HTTP request issued by this call (`.error m` when
the envelope carries an `errorMessage`, which the source turns into a
thrown `Error`).  `aborted k` is the state of
`abortController.signal.aborted` observed at the flush boundary reached
after `k` requests.  The first component of every result lists the
request bodies actually sent, in order; URL and header plumbing and the
`batchProgressFunc` callback are side channels no claim refers to and
are not modelled. -/

/-- `SqlSaveStatus` (sql-data.api.ts lines 23-38). -/
structure SqlSaveStatus where
  inserted : Nat
  updated : Nat
  deleted : Nat
deriving Repr, DecidableEq

/-- The zero-valued status the engine starts from (lines 758-762). -/
def zeroStatus : SqlSaveStatus := ⟨0, 0, 0⟩

/-- Component-wise accumulation of one batch status into the running
total (lines 852-854). -/
def addStatus (a b : SqlSaveStatus) : SqlSaveStatus :=
  ⟨a.inserted + b.inserted, a.updated + b.updated, a.deleted + b.deleted⟩

/-- `SqlSaveOptions` (sql-data.api.ts lines 100-120); the
`batchProgressFunc` callback is not modelled. -/
structure SqlSaveOptions where
  method : Option String := none
  batchSize : Option Nat := none
  primaryKeys : Option (List JStr) := none
deriving Repr, DecidableEq

/-- Columnar `TableDto` of `datapipe-js`: field names plus positional
rows. -/
structure TableDto (Row : Type) where
  fieldNames : List JStr
  rows : List Row
deriving Repr, DecidableEq

/-- The body of one save request (lines 798-805 for chunked batches,
line 779 for the delete-only request, which carries neither `tableData`
nor `primaryKeys`). -/
structure SaveRequestBody (Row : Type) where
  tableData : Option (TableDto Row)
  itemsToDelete : Option (List JRecord)
  primaryKeys : Option (List JStr)
deriving Repr, DecidableEq

/-- The rows carried by a request body (empty for the delete-only
request). -/
def bodyRows {Row : Type} (b : SaveRequestBody Row) : List Row :=
  (b.tableData.map TableDto.rows).getD []

/-- The fixed serialized-size ceiling `maxTableSize` (line 738). -/
def maxTableSize : Nat := 1500000

/-- The per-call environment of the batching loop: external row
serialization size, server responses by request index, abort-signal
state by flush boundary, the resolved `maxRowsCount`, and the constant
parts of every batch body. -/
structure SaveCtx (Row : Type) where
  rowSize : Row → Nat
  respond : Nat → Except String SqlSaveStatus
  hasAbortController : Bool
  aborted : Nat → Bool
  maxRowsCount : Nat
  fieldNames : List JStr
  itemsToDelete : Option (List JRecord)
  primaryKeys : Option (List JStr)

/-- The batch body sent by one flush (lines 798-805): the accumulated
rows plus the full delete list and primary keys, which are part of the
single mutable `body` object and are never cleared between flushes. -/
def mkBody {Row : Type} (ctx : SaveCtx Row) (rows : List Row) :
    SaveRequestBody Row :=
  { tableData := some ⟨ctx.fieldNames, rows⟩,
    itemsToDelete := ctx.itemsToDelete,
    primaryKeys := ctx.primaryKeys }

/-- The `while` loop of `saveData` (lines 807-858).  Arguments after the
context: remaining rows, accumulated batch (`body.tableData.rows`),
`currentSize`, requests sent so far, running `status`.  Each row is
pushed and sized; a flush fires when the row is the last one, the batch
has reached `maxRowsCount` rows, or the accumulated size exceeds
`maxTableSize`; right before sending, an already-aborted signal breaks
out of the loop; a response carrying an error message is thrown after
the request was issued. -/
def saveLoop {Row : Type} (ctx : SaveCtx Row) :
    List Row → List Row → Nat → List (SaveRequestBody Row) → SqlSaveStatus →
    List (SaveRequestBody Row) × Except String SqlSaveStatus
  | [], _batch, _currentSize, sent, status => (sent, .ok status)
  | row :: rest, batch, currentSize, sent, status =>
    let batch2 := batch ++ [row]
    let currentSize2 := currentSize + ctx.rowSize row
    if rest.isEmpty || decide (ctx.maxRowsCount ≤ batch2.length) ||
        decide (maxTableSize < currentSize2) then
      if ctx.hasAbortController && ctx.aborted sent.length then
        (sent, .ok status)
      else
        let body := mkBody ctx batch2
        match ctx.respond sent.length with
        | .error m => (sent ++ [body], .error m)
        | .ok single =>
          saveLoop ctx rest [] 0 (sent ++ [body]) (addStatus status single)
    else
      saveLoop ctx rest batch2 currentSize2 sent status

/-- Resolution of `saveOptions?.batchSize || 10000` (line 739): an
absent — or zero, hence falsy — batch size falls back to 10000. -/
def resolveMaxRowsCount (saveOptions : Option SqlSaveOptions) : Nat :=
  match saveOptions with
  | some o =>
    match o.batchSize with
    | some b => if b = 0 then 10000 else b
    | none => 10000
  | none => 10000

/-- Model of the private `saveData` (sql-data.api.ts lines 732-862).
Result: the list of issued request bodies in order, paired with the
returned status or the thrown error message. -/
def saveData {Row : Type} (rowSize : Row → Nat)
    (respond : Nat → Except String SqlSaveStatus)
    (hasAbortController : Bool) (aborted : Nat → Bool)
    (fieldNames : List JStr) (items : Option (List Row))
    (itemsToDelete : Option (List JRecord))
    (saveOptions : Option SqlSaveOptions) :
    List (SaveRequestBody Row) × Except String SqlSaveStatus :=
  let maxRowsCount := resolveMaxRowsCount saveOptions
  let primaryKeys :=
    match saveOptions with
    | some o => o.primaryKeys
    | none => none
  let itemsToDelete2 := itemsToDelete.map (fun l => l.map toPrimitive)
  let deleteOnly : List (SaveRequestBody Row) × Except String SqlSaveStatus :=
    match itemsToDelete2 with
    | some (d :: ds) =>
      let body : SaveRequestBody Row :=
        { tableData := none, itemsToDelete := some (d :: ds),
          primaryKeys := none }
      (match respond 0 with
       | .error m => ([body], .error m)
       | .ok st => ([body], .ok st))
    | _ => ([], .ok zeroStatus)
  match items with
  | none => deleteOnly
  | some [] => deleteOnly
  | some (r :: rs) =>
    let ctx : SaveCtx Row :=
      { rowSize := rowSize, respond := respond,
        hasAbortController := hasAbortController, aborted := aborted,
        maxRowsCount := maxRowsCount, fieldNames := fieldNames,
        itemsToDelete := itemsToDelete2, primaryKeys := primaryKeys }
    saveLoop ctx (r :: rs) [] 0 [] zeroStatus

/-- Third argument of the public `save`: delete rows or a save-options
object, distinguished at runtime by `Array.isArray`. -/
abbrev ItemsToDeleteOrSaveOptions := Sum (List JRecord) SqlSaveOptions

/-- Model of the public `save` (sql-data.api.ts lines 602-626): resolves
the overloaded third argument — a non-array object with no fourth
argument becomes the save options, an array becomes the delete list —
and forwards to `saveData`. -/
def save {Row : Type} (rowSize : Row → Nat)
    (respond : Nat → Except String SqlSaveStatus)
    (hasAbortController : Bool) (aborted : Nat → Bool)
    (fieldNames : List JStr) (items : Option (List Row))
    (itemsToDeleteOrSaveOptions : Option ItemsToDeleteOrSaveOptions)
    (saveOptions : Option SqlSaveOptions) :
    List (SaveRequestBody Row) × Except String SqlSaveStatus :=
  let resolved : Option (List JRecord) × Option SqlSaveOptions :=
    if saveOptions.isNone &&
        (match itemsToDeleteOrSaveOptions with
         | some (.inr _) => true
         | _ => false) then
      (none,
       match itemsToDeleteOrSaveOptions with
       | some (.inr o) => some o
       | _ => none)
    else if (match itemsToDeleteOrSaveOptions with
             | some (.inl _) => true
             | _ => false) then
      ((match itemsToDeleteOrSaveOptions with
        | some (.inl l) => some l
        | _ => none),
       saveOptions)
    else
      (none, saveOptions)
  saveData rowSize respond hasAbortController aborted fieldNames items
    resolved.1 resolved.2

/-! ## Chunk specification

An independent specification of how a row list splits into batches of
at most `n` rows, used to state what the loop sends.  Defined with a
fuel argument so it is structurally recursive and evaluates in the
kernel. -/

/-- Fueled worker for `chunks`. -/
def chunksGo (n : Nat) : Nat → List α → List (List α)
  | _, [] => []
  | 0, _ :: _ => []
  | fuel + 1, x :: xs => (x :: xs).take n :: chunksGo n fuel ((x :: xs).drop n)

/-- Splits a list into consecutive chunks of `n` elements (the last one
possibly shorter). -/
def chunks (n : Nat) (xs : List α) : List (List α) :=
  chunksGo n xs.length xs

/-! ## Spec-side helper definitions used only in theorem statements -/

/-- Everything before the first space of a string (spec wording for the
name part of `"Name Alias"` parsing). -/
def beforeFirstSpace (s : JStr) : JStr := s.takeWhile (fun c => !(c == ' '))

/-- Everything after the last space of a string (spec wording for the
alias part of `"Name Alias"` parsing). -/
def afterLastSpace (s : JStr) : JStr :=
  (s.reverse.takeWhile (fun c => !(c == ' '))).reverse

/-- Accumulates the per-batch statuses `stf start, …, stf (start+k-1)`
into `acc`, mirroring the loop's running total. -/
def runStatuses (stf : Nat → SqlSaveStatus) : Nat → Nat → SqlSaveStatus → SqlSaveStatus
  | _, 0, acc => acc
  | start, k + 1, acc => runStatuses stf (start + 1) k (addStatus acc (stf start))

/-! # Theorems

### Primitive coercion (claim C9) -/

lemma scalarListToPrimitive_eq_map (xs : ScalarList) :
    scalarListToPrimitive xs = xs.map scalarToPrimitive := by
  cases xs with
  | nil => rfl
  | cons v vs =>
    simp only [scalarListToPrimitive, ScalarList.map]
    rw [scalarListToPrimitive_eq_map vs]

mutual

lemma scalarToPrimitive_of_noDate (v : ScalarV) (h : noDate v = true) :
    scalarToPrimitive v = v := by
  cases v with
  | vArr xs =>
    simp only [scalarToPrimitive]
    rw [scalarListToPrimitive_of_noDateList xs h]
  | vDate d => simp [noDate] at h
  | vNull => rfl
  | vBool b => rfl
  | vNum n => rfl
  | vStr s => rfl

lemma scalarListToPrimitive_of_noDateList (xs : ScalarList)
    (h : noDateList xs = true) : scalarListToPrimitive xs = xs := by
  cases xs with
  | nil => rfl
  | cons v vs =>
    simp only [noDateList, Bool.and_eq_true] at h
    simp only [scalarListToPrimitive]
    rw [scalarToPrimitive_of_noDate v h.1,
      scalarListToPrimitive_of_noDateList vs h.2]

end

mutual

lemma noDate_scalarToPrimitive (v : ScalarV) :
    noDate (scalarToPrimitive v) = true := by
  cases v with
  | vArr xs =>
    simp only [scalarToPrimitive, noDate]
    exact noDateList_scalarListToPrimitive xs
  | vDate d => rfl
  | vNull => rfl
  | vBool b => rfl
  | vNum n => rfl
  | vStr s => rfl

lemma noDateList_scalarListToPrimitive (xs : ScalarList) :
    noDateList (scalarListToPrimitive xs) = true := by
  cases xs with
  | nil => rfl
  | cons v vs =>
    simp only [scalarListToPrimitive, noDateList, Bool.and_eq_true]
    exact ⟨noDate_scalarToPrimitive v, noDateList_scalarListToPrimitive vs⟩

end

lemma toPrimitive_of_noDate (obj : JRecord)
    (h : ∀ kv ∈ obj, noDate kv.2 = true) : toPrimitive obj = obj := by
  induction obj with
  | nil => rfl
  | cons kv tl ih =>
    simp only [toPrimitive, List.map_cons] at ih ⊢
    rw [scalarToPrimitive_of_noDate kv.2 (h kv (by simp)),
      ih (fun x hx => h x (by simp [hx]))]

/-- C9: the primitive coercion maps array values element-wise and
recursively, converts every `Date` value to its canonical string
representation `dt(dateToString d)`, passes every other scalar (null,
boolean, number, string) through unchanged, acts as the identity on any
record containing no `Date` value, and is consequently idempotent on
records. -/
theorem claim_C9_toPrimitive :
    (∀ xs : ScalarList,
      scalarToPrimitive (.vArr xs) = .vArr (xs.map scalarToPrimitive))
    ∧ (∀ d : Int,
      scalarToPrimitive (.vDate d) = .vStr ("dt(" ++ dateToString d ++ ")"))
    ∧ (scalarToPrimitive .vNull = .vNull)
    ∧ (∀ b, scalarToPrimitive (.vBool b) = .vBool b)
    ∧ (∀ n, scalarToPrimitive (.vNum n) = .vNum n)
    ∧ (∀ s, scalarToPrimitive (.vStr s) = .vStr s)
    ∧ (∀ obj : JRecord, (∀ kv ∈ obj, noDate kv.2 = true) →
        toPrimitive obj = obj)
    ∧ (∀ obj : JRecord, toPrimitive (toPrimitive obj) = toPrimitive obj) := by
  refine ⟨?_, fun _ => rfl, rfl, fun _ => rfl, fun _ => rfl, fun _ => rfl, ?_, ?_⟩
  · intro xs
    simp only [scalarToPrimitive, scalarListToPrimitive_eq_map]
  · exact toPrimitive_of_noDate
  · intro obj
    refine toPrimitive_of_noDate _ (fun kv hkv => ?_)
    rcases List.mem_map.mp hkv with ⟨kv0, _, rfl⟩
    exact noDate_scalarToPrimitive kv0.2

/-- Witness for C9: the identity part evaluated on a concrete
date-free record. -/
theorem claim_C9_toPrimitive_witness :
    toPrimitive [("a", ScalarV.vNum 3), ("c", ScalarV.vStr "x")] =
      [("a", ScalarV.vNum 3), ("c", ScalarV.vStr "x")] :=
  claim_C9_toPrimitive.2.2.2.2.2.2.1 _ (by decide)

/-! ### Name/alias parser (claim C6) -/

lemma head?_dropWhile_false {p : Char → Bool} :
    ∀ (l : JStr) (x : Char), (l.dropWhile p).head? = some x → p x = false := by
  intro l
  induction l with
  | nil => intro x hx; simp at hx
  | cons a l ih =>
    intro x hx
    by_cases ha : p a
    · exact ih x (by simpa [List.dropWhile_cons, ha] using hx)
    · rw [List.dropWhile_cons, if_neg ha] at hx
      simp only [List.head?_cons, Option.some.injEq] at hx
      subst hx
      simpa using ha

lemma dropWhile_eq_self_of_head {p : Char → Bool} (l : JStr)
    (h : ∀ x, l.head? = some x → p x = false) : l.dropWhile p = l := by
  cases l with
  | nil => rfl
  | cons a l => simp [List.dropWhile_cons, h a rfl]

lemma trimJ_prefix_dropWhile (s : JStr) : trimJ s <+: s.dropWhile isWs := by
  have h : ((s.dropWhile isWs).reverse.dropWhile isWs).reverse <+:
      (s.dropWhile isWs).reverse.reverse :=
    List.reverse_prefix.mpr (List.dropWhile_suffix isWs)
  rw [List.reverse_reverse] at h
  exact h

lemma trimJ_head_not_ws (s : JStr) :
    ∀ x, (trimJ s).head? = some x → isWs x = false := by
  intro x hx
  rcases trimJ_prefix_dropWhile s with ⟨tail, hpre⟩
  cases ht : trimJ s with
  | nil => rw [ht] at hx; simp at hx
  | cons y ys =>
    rw [ht] at hx
    simp only [List.head?, Option.some.injEq] at hx
    subst hx
    apply head?_dropWhile_false s y
    rw [← hpre, ht]
    rfl

lemma trimJ_dropWhile_eq_self (s : JStr) : (trimJ s).dropWhile isWs = trimJ s :=
  dropWhile_eq_self_of_head _ (trimJ_head_not_ws s)

lemma trimJ_idem (s : JStr) : trimJ (trimJ s) = trimJ s := by
  have hv2 : (trimJ s).reverse.dropWhile isWs = (trimJ s).reverse := by
    have hr : (trimJ s).reverse = (s.dropWhile isWs).reverse.dropWhile isWs := by
      simp [trimJ]
    rw [hr]
    exact dropWhile_eq_self_of_head _ (fun x hx => head?_dropWhile_false _ x hx)
  show (((trimJ s).dropWhile isWs).reverse.dropWhile isWs).reverse = trimJ s
  rw [trimJ_dropWhile_eq_self, hv2, List.reverse_reverse]

lemma trimJ_cons_ws (c : Char) (l : JStr) (hc : isWs c = true) :
    trimJ (c :: l) = trimJ l := by
  simp [trimJ, List.dropWhile_cons, hc]

lemma trimJ_of_no_ws (l : JStr) (h : ∀ c ∈ l, isWs c = false) : trimJ l = l := by
  have h1 : l.dropWhile isWs = l := by
    cases l with
    | nil => rfl
    | cons a l => simp [List.dropWhile_cons, h a (by simp)]
  have h2 : l.reverse.dropWhile isWs = l.reverse := by
    cases hr : l.reverse with
    | nil => rfl
    | cons a r =>
      have ha : a ∈ l := by
        rw [← List.mem_reverse, hr]; simp
      simp [List.dropWhile_cons, h a ha]
  simp [trimJ, h1, h2]

lemma not_space_of_not_ws {c : Char} (h : isWs c = false) : (c == ' ') = false := by
  simp only [isWs, Bool.or_eq_false_iff] at h
  exact h.1.1.1

lemma findIdx?_space_of_mem :
    ∀ (t : JStr) (i : Nat), ' ' ∈ t →
      t.findIdx? (· == ' ') i = some (i + (beforeFirstSpace t).length) := by
  intro t
  induction t with
  | nil => intro i h; simp at h
  | cons x xs ih =>
    intro i h
    by_cases hx : x = ' '
    · subst hx
      simp [List.findIdx?_cons, beforeFirstSpace, List.takeWhile_cons]
    · have hb : (x == ' ') = false := by simpa using hx
      have hxs : ' ' ∈ xs := by
        rcases List.mem_cons.mp h with h1 | h1
        · exact absurd h1.symm hx
        · exact h1
      have hbf : beforeFirstSpace (x :: xs) = x :: beforeFirstSpace xs := by
        simp [beforeFirstSpace, List.takeWhile_cons, hb]
      rw [List.findIdx?_cons, hb]
      simp only [Bool.false_eq_true, if_false]
      rw [ih (i + 1) hxs, hbf]
      simp only [List.length_cons, Option.some.injEq]
      omega

lemma findIdx?_space_of_not_mem :
    ∀ (t : JStr) (i : Nat), ' ' ∉ t → t.findIdx? (· == ' ') i = none := by
  intro t
  induction t with
  | nil => intro i _; simp
  | cons x xs ih =>
    intro i h
    have hx : (x == ' ') = false := by
      simp only [beq_eq_false_iff_ne, ne_eq]
      intro hc; exact h (by simp [hc])
    rw [List.findIdx?_cons, hx]
    simp only [Bool.false_eq_true, if_false]
    exact ih (i + 1) (fun hm => h (by simp [hm]))

lemma takeWhile_append_stop {p : Char → Bool} (n : JStr) (y : Char) (a : JStr)
    (hn : ∀ c ∈ n, p c = true) (hy : p y = false) :
    (n ++ y :: a).takeWhile p = n := by
  induction n with
  | nil => simp [List.takeWhile_cons, hy]
  | cons c l ih =>
    simp only [List.cons_append, List.takeWhile_cons, hn c (by simp), if_true]
    rw [ih (fun c hc => hn c (by simp [hc]))]

lemma extract_of_space (s : JStr) (h : ' ' ∈ trimJ s) :
    extractNameAndAlias s =
      { name := trimJ (beforeFirstSpace (trimJ s)),
        aliasName := some (trimJ (afterLastSpace (trimJ s))) } := by
  have hfirst : idxOfSpace (trimJ s) = some (beforeFirstSpace (trimJ s)).length := by
    simpa [idxOfSpace] using findIdx?_space_of_mem (trimJ s) 0 h
  have hpos : 0 < (beforeFirstSpace (trimJ s)).length := by
    rcases Nat.eq_zero_or_pos (beforeFirstSpace (trimJ s)).length with hz | hp
    · exfalso
      have hne : trimJ s ≠ [] := by
        intro h0; rw [h0] at h; simp at h
      cases ht : trimJ s with
      | nil => exact hne ht
      | cons x xs =>
        have hempt : beforeFirstSpace (x :: xs) = [] := by
          rw [← ht]; exact List.length_eq_zero.mp hz
        by_cases hx : (x == ' ') = true
        · have hhead : (trimJ s).head? = some x := by rw [ht]; rfl
          have hnws := trimJ_head_not_ws s x hhead
          have hx2 : x = ' ' := by simpa using hx
          rw [hx2] at hnws
          simp [isWs] at hnws
        · simp only [Bool.not_eq_true] at hx
          simp [beforeFirstSpace, List.takeWhile_cons, hx] at hempt
    · exact hp
  have hcond : hasSpaceAtPos (trimJ s) = true := by
    unfold hasSpaceAtPos
    rw [hfirst]
    simpa using hpos
  have hmemrev : ' ' ∈ (trimJ s).reverse := List.mem_reverse.mpr h
  have hlast : (trimJ s).reverse.findIdx? (· == ' ') =
      some (((trimJ s).reverse.takeWhile (fun c => !(c == ' '))).length) := by
    simpa [beforeFirstSpace] using findIdx?_space_of_mem (trimJ s).reverse 0 hmemrev
  have hsplit : (trimJ s).reverse =
      (trimJ s).reverse.takeWhile (fun c => !(c == ' ')) ++
        (trimJ s).reverse.dropWhile (fun c => !(c == ' ')) :=
    (List.takeWhile_append_dropWhile _ _).symm
  have hDne : (trimJ s).reverse.dropWhile (fun c => !(c == ' ')) ≠ [] := by
    intro h0
    rw [h0, List.append_nil] at hsplit
    have hmem2 := List.mem_takeWhile_imp (hsplit ▸ hmemrev)
    simp at hmem2
  cases hD : (trimJ s).reverse.dropWhile (fun c => !(c == ' ')) with
  | nil => exact absurd hD hDne
  | cons d z =>
    have hd : d = ' ' := by
      have hh := head?_dropWhile_false (p := fun c => !(c == ' '))
        (trimJ s).reverse d (by rw [hD]; rfl)
      simpa using hh
    subst hd
    rw [hD] at hsplit
    have hgen : ∀ (w zz : JStr),
        (w ++ ' ' :: zz).reverse = zz.reverse ++ ' ' :: w.reverse := by
      intro w zz
      simp [List.reverse_append]
    have ht2 : trimJ s =
        z.reverse ++ ' ' ::
          ((trimJ s).reverse.takeWhile (fun c => !(c == ' '))).reverse := by
      have hc := congrArg List.reverse hsplit
      rw [List.reverse_reverse, hgen] at hc
      exact hc
    have hlastidx : lastIdxOfSpace (trimJ s) = some z.length := by
      unfold lastIdxOfSpace
      rw [hlast]
      simp only [Option.map_some']
      have hlen : (trimJ s).length =
          z.length + 1 +
            ((trimJ s).reverse.takeWhile (fun c => !(c == ' '))).length := by
        conv_lhs => rw [ht2]
        simp only [List.length_append, List.length_cons, List.length_reverse]
        omega
      rw [hlen]
      simp only [Option.some.injEq]
      omega
    have hdrop : (trimJ s).drop z.length =
        ' ' :: ((trimJ s).reverse.takeWhile (fun c => !(c == ' '))).reverse := by
      conv_lhs => rw [ht2]
      rw [show z.length = z.reverse.length from (List.length_reverse z).symm]
      rw [List.drop_left]
    have htake : (trimJ s).take (beforeFirstSpace (trimJ s)).length =
        beforeFirstSpace (trimJ s) :=
      (List.prefix_iff_eq_take.mp (List.takeWhile_prefix _)).symm
    show extractNameAndAlias s =
      { name := trimJ (beforeFirstSpace (trimJ s)),
        aliasName := some (trimJ (afterLastSpace (trimJ s))) }
    unfold extractNameAndAlias
    rw [if_pos hcond, if_pos hcond]
    simp only [NameAlias.mk.injEq]
    constructor
    · rw [hfirst]
      simp only [Option.getD_some]
      rw [htake]
    · rw [hlastidx]
      simp only [Option.getD_some, Option.some.injEq]
      rw [hdrop]
      rw [trimJ_cons_ws ' ' _ (by simp [isWs])]
      rfl

lemma extract_of_no_space (s : JStr) (h : ' ' ∉ trimJ s) :
    extractNameAndAlias s = { name := trimJ s, aliasName := none } := by
  have hfirst : idxOfSpace (trimJ s) = none := by
    simpa [idxOfSpace] using findIdx?_space_of_not_mem (trimJ s) 0 h
  have hcond : hasSpaceAtPos (trimJ s) = false := by
    unfold hasSpaceAtPos
    rw [hfirst]
  unfold extractNameAndAlias
  rw [if_neg (by simp [hcond]), if_neg (by simp [hcond])]
  rw [trimJ_idem]

/-- C6: the name/alias parser trims its input; when the trimmed string
contains a space, the name is everything before the first space and the
alias is everything after the last space (each trimmed), otherwise the
alias is absent and the name is the trimmed input; and for every valid
`"Name Alias"` input (space-free non-empty name and alias words),
reconstructing `name ++ " " ++ alias` yields the original trimmed
string. -/
theorem claim_C6_extractNameAndAlias :
    (∀ s : JStr, ' ' ∈ trimJ s →
      extractNameAndAlias s =
        { name := trimJ (beforeFirstSpace (trimJ s)),
          aliasName := some (trimJ (afterLastSpace (trimJ s))) })
    ∧ (∀ s : JStr, ' ' ∉ trimJ s →
      extractNameAndAlias s = { name := trimJ s, aliasName := none })
    ∧ (∀ s n a : JStr, trimJ s = n ++ ' ' :: a → n ≠ [] → a ≠ [] →
        (∀ c ∈ n, isWs c = false) → (∀ c ∈ a, isWs c = false) →
        (extractNameAndAlias s).name ++ ' ' ::
          ((extractNameAndAlias s).aliasName.getD []) = trimJ s) := by
  refine ⟨extract_of_space, extract_of_no_space, ?_⟩
  intro s n a ht hn ha hnws haws
  have hmem : ' ' ∈ trimJ s := by rw [ht]; simp
  rw [extract_of_space s hmem]
  have hbefore : beforeFirstSpace (trimJ s) = n := by
    unfold beforeFirstSpace
    rw [ht]
    exact takeWhile_append_stop n ' ' a
      (fun c hc => by simpa using not_space_of_not_ws (hnws c hc))
      (by simp)
  have hafter : afterLastSpace (trimJ s) = a := by
    unfold afterLastSpace
    rw [ht]
    rw [show (n ++ ' ' :: a).reverse = a.reverse ++ ' ' :: n.reverse by
      simp [List.reverse_append]]
    rw [takeWhile_append_stop a.reverse ' ' n.reverse
      (fun c hc => by
        simpa using not_space_of_not_ws (haws c (List.mem_reverse.mp hc)))
      (by simp)]
    exact List.reverse_reverse a
  rw [hbefore, hafter, trimJ_of_no_ws n hnws, trimJ_of_no_ws a haws]
  simp [ht]

/-- Witness for C6: the round-trip property evaluated on the concrete
input `" Customers c "`. -/
theorem claim_C6_witness :
    (extractNameAndAlias (" Customers c ".toList)).name ++ ' ' ::
      ((extractNameAndAlias (" Customers c ".toList)).aliasName.getD []) =
      trimJ (" Customers c ".toList) :=
  claim_C6_extractNameAndAlias.2.2 _ ("Customers".toList) ("c".toList)
    (by decide) (by decide) (by decide) (by decide) (by decide)

/-! ### Result/error normalizer (claim C3) -/

lemma jsOrVal_truthy (a : Option JsVal) (b : JsVal) (hb : truthy b = true) :
    truthy (jsOrVal a b) = true := by
  cases a with
  | none => exact hb
  | some v =>
    cases hv : truthy v with
    | true => simp [jsOrVal, hv]
    | false => simp [jsOrVal, hv, hb]

lemma jsonStringify_obj_ne_empty (fs : JsFields) :
    (jsonStringify (.jObj fs) == "") = false := by
  simp only [beq_eq_false_iff_ne, ne_eq, jsonStringify]
  intro h
  have h2 := congrArg String.length h
  simp only [String.length_append] at h2
  have hA : "\x7b".length = 1 := by decide
  have hB : "\x7d".length = 1 := by decide
  have hC : ("" : String).length = 0 := by decide
  rw [hA, hB, hC] at h2
  omega

lemma truthy_extractErrorMessage (r : FailResponse) :
    truthy (extractErrorMessage r) = true := by
  unfold extractErrorMessage
  have hlit : truthy (JsVal.jStr "Http Connection Error") = true := by decide
  have hchain : truthy (jsOrVal (messageOfData r.data)
      (jsOrVal r.data
        (jsOrVal (r.statusText.map .jStr) (.jStr "Http Connection Error")))) = true :=
    jsOrVal_truthy _ _ (jsOrVal_truthy _ _ (jsOrVal_truthy _ _ hlit))
  cases hm : jsOrVal (messageOfData r.data)
      (jsOrVal r.data
        (jsOrVal (r.statusText.map .jStr) (.jStr "Http Connection Error"))) with
  | jObj fs =>
    simp only [hm, isObjectType, if_true, truthy]
    simp [jsonStringify_obj_ne_empty fs]
  | jNull => rw [hm] at hchain; simp [truthy] at hchain
  | jBool b => rw [hm] at hchain; simpa [isObjectType] using hchain
  | jNum n => rw [hm] at hchain; simpa [isObjectType] using hchain
  | jStr s => rw [hm] at hchain; simpa [isObjectType] using hchain

lemma extractErrorMessage_msg (r : FailResponse) (mv : JsVal)
    (hm : messageOfData r.data = some mv) (ht : truthy mv = true) :
    extractErrorMessage r =
      (if isObjectType mv then .jStr (jsonStringify mv) else mv) := by
  unfold extractErrorMessage
  rw [hm]
  simp [jsOrVal, ht]

lemma extractErrorMessage_body (r : FailResponse) (d : JsVal)
    (hm : ∀ v, messageOfData r.data = some v → truthy v = false)
    (hd : r.data = some d) (ht : truthy d = true) :
    extractErrorMessage r =
      (if isObjectType d then .jStr (jsonStringify d) else d) := by
  unfold extractErrorMessage
  cases hmd : messageOfData r.data with
  | none => rw [hd]; simp [jsOrVal, ht]
  | some v =>
    have hv := hm v hmd
    rw [hd]
    simp [jsOrVal, hv, ht]

lemma extractErrorMessage_statusText (r : FailResponse) (sx : String)
    (hm : ∀ v, messageOfData r.data = some v → truthy v = false)
    (hd : ∀ v, r.data = some v → truthy v = false)
    (hs : r.statusText = some sx) (hx : (sx == "") = false) :
    extractErrorMessage r = .jStr sx := by
  unfold extractErrorMessage
  rw [hs]
  have ht : truthy (JsVal.jStr sx) = true := by simp [truthy, hx]
  cases hmd : messageOfData r.data with
  | none =>
    cases hdd : r.data with
    | none => simp [jsOrVal, Option.map_some', ht, isObjectType]
    | some v => simp [jsOrVal, Option.map_some', hd v hdd, ht, isObjectType]
  | some v =>
    cases hdd : r.data with
    | none => simp [jsOrVal, Option.map_some', hm v hmd, ht, isObjectType]
    | some w =>
      simp [jsOrVal, Option.map_some', hm v hmd, hd w hdd, ht, isObjectType]

lemma extractErrorMessage_fallback (r : FailResponse)
    (hm : ∀ v, messageOfData r.data = some v → truthy v = false)
    (hd : ∀ v, r.data = some v → truthy v = false)
    (hs : ∀ v, r.statusText = some v → (v == "") = true) :
    extractErrorMessage r = .jStr "Http Connection Error" := by
  unfold extractErrorMessage
  have hlast : jsOrVal (r.statusText.map .jStr) (.jStr "Http Connection Error") =
      .jStr "Http Connection Error" := by
    cases hss : r.statusText with
    | none => rfl
    | some v => simp [jsOrVal, Option.map_some', truthy, hs v hss]
  rw [hlast]
  cases hmd : messageOfData r.data with
  | none =>
    cases hdd : r.data with
    | none => simp [jsOrVal, isObjectType]
    | some v => simp [jsOrVal, hd v hdd, isObjectType]
  | some v =>
    cases hdd : r.data with
    | none => simp [jsOrVal, hm v hmd, isObjectType]
    | some w => simp [jsOrVal, hm v hmd, hd w hdd, isObjectType]

/-- C3: the result/error normalizer never throws across its boundary —
every transport outcome is mapped to an envelope: success becomes
`{isOk:true, status, statusText, data}`, failure becomes
`{isOk:false, …}` whose `errorMessage` is always present and truthy and
is taken, in order, from the body's structured `message` field, else
the raw body (stringified when structured), else the transport status
text, else the literal `"Http Connection Error"`; and the shared
envelope-to-exception step of every public operation raises exactly
that `errorMessage` whenever the envelope is not ok. -/
theorem claim_C3_httpRequest :
    (∀ (st : Int) (sx : String) (d : Option JsVal),
      httpRequest (.fulfilled st sx d) =
        { data := d, isOk := true, status := some st,
          statusText := some sx, errorMessage := none }
      ∧ throwIfError (httpRequest (.fulfilled st sx d)) = .ok d)
    ∧ (∀ ro : Option FailResponse,
        (httpRequest (.rejected ro)).isOk = false
        ∧ (httpRequest (.rejected ro)).errorMessage =
            some (extractErrorMessage (ro.getD {}))
        ∧ truthy (extractErrorMessage (ro.getD {})) = true
        ∧ throwIfError (httpRequest (.rejected ro)) =
            .error (extractErrorMessage (ro.getD {})))
    ∧ (∀ (r : FailResponse) (mv : JsVal), messageOfData r.data = some mv →
        truthy mv = true →
        extractErrorMessage r =
          (if isObjectType mv then .jStr (jsonStringify mv) else mv))
    ∧ (∀ (r : FailResponse) (d : JsVal),
        (∀ v, messageOfData r.data = some v → truthy v = false) →
        r.data = some d → truthy d = true →
        extractErrorMessage r =
          (if isObjectType d then .jStr (jsonStringify d) else d))
    ∧ (∀ (r : FailResponse) (sx : String),
        (∀ v, messageOfData r.data = some v → truthy v = false) →
        (∀ v, r.data = some v → truthy v = false) →
        r.statusText = some sx → (sx == "") = false →
        extractErrorMessage r = .jStr sx)
    ∧ (∀ r : FailResponse,
        (∀ v, messageOfData r.data = some v → truthy v = false) →
        (∀ v, r.data = some v → truthy v = false) →
        (∀ v, r.statusText = some v → (v == "") = true) →
        extractErrorMessage r = .jStr "Http Connection Error") := by
  refine ⟨fun st sx d => ⟨rfl, rfl⟩, ?_, extractErrorMessage_msg,
    extractErrorMessage_body, extractErrorMessage_statusText,
    extractErrorMessage_fallback⟩
  intro ro
  refine ⟨rfl, rfl, truthy_extractErrorMessage _, ?_⟩
  show throwIfError
      { isOk := false, status := (ro.getD {}).status,
        statusText := (ro.getD {}).statusText, data := none,
        errorMessage := some (extractErrorMessage (ro.getD {})) } =
    .error (extractErrorMessage (ro.getD {}))
  unfold throwIfError
  simp [truthy_extractErrorMessage]

/-- Witness for C3: a rejection whose response carries only a status
text yields exactly that text as the error message. -/
theorem claim_C3_witness :
    extractErrorMessage
        { data := none, status := some 404, statusText := some "Not Found" } =
      .jStr "Not Found" :=
  claim_C3_httpRequest.2.2.2.2.1
    { data := none, status := some 404, statusText := some "Not Found" }
    "Not Found"
    (fun v hv => by simp [messageOfData] at hv)
    (fun v hv => by simp at hv)
    rfl (by decide)

/-! ### Fluent builder state reset (claim C4)

The claim asserts the builder's `queryInfo` is reset after the call
completes "on success and on failure alike".  The source resets it only
on the success path: `this.queryInfo = {}` sits after the `await`, so a
rejected `_query` throws past it and the state survives. -/

lemma queryMethodCore_state (q : SqlReadQueryInfo)
    (o : Except String (List JRecord)) :
    (queryMethodCore q o).2 =
      match (queryMethodCore q o).1 with
      | .ok _ => emptyQueryInfo
      | .error _ => q := by
  cases o <;> rfl

/-- Counterexample for C4: after a failing `query` call on a builder
whose state holds a filter, the state is unchanged (not reset to
empty), so the "on failure alike" half of the claim is false. -/
theorem claim_C4_counterexample :
    (queryMethod { filter := some ("x='1'".toList) } [] none none none
        (fun _ _ _ => .error "network failure")).2 ≠ emptyQueryInfo := by
  decide

/-- C4 (amended): the builder's query state is reset to empty after a
`query` call that completes successfully; after a call whose underlying
`_query` fails, the state is left exactly as it was. -/
theorem claim_C4_query_state_reset (queryInfo : SqlReadQueryInfo)
    (tableName : JStr) (tableOrViewName : Option JStr)
    (fieldsOrQuery : Option FieldsOrQuery)
    (queryInfoSettings : Option SqlReadQueryInfo)
    (runQuery : JStr → Option FieldsOrQuery → Option SqlReadQueryInfo →
      Except String (List JRecord)) :
    (queryMethod queryInfo tableName tableOrViewName fieldsOrQuery
        queryInfoSettings runQuery).2 =
      match (queryMethod queryInfo tableName tableOrViewName fieldsOrQuery
          queryInfoSettings runQuery).1 with
      | .ok _ => emptyQueryInfo
      | .error _ => queryInfo :=
  queryMethodCore_state queryInfo _

/-! ### Wire-request field omission (claim C5)

Every listed field is indeed omitted when its source is empty, zero or
absent — except `filterParameters`: an empty (but present)
`filterParams` object is truthy in JavaScript, so the translator sends
an empty object instead of omitting the field. -/

/-- Counterexample for C5: a query spec whose `filterParams` is an
empty record produces a wire request that still carries
`filterParameters` (as an empty object) instead of omitting it. -/
theorem claim_C5_counterexample :
    (buildQueryRequest ("T".toList) none
        (some { filterParams := some ([] : JRecord) })).filterParameters =
        some []
    ∧ ¬ (buildQueryRequest ("T".toList) none
        (some { filterParams := some ([] : JRecord) })).filterParameters =
        none := by
  exact ⟨by decide, by decide⟩

/-- C5 (amended): for every query spec, the translated wire request
omits `top`, `select`, `filterString`, `skip`, `orderBy`,
`mainTableAlias` and `tablesJoin` whenever the source value is empty,
zero or absent; `filterParameters` is omitted only when `filterParams`
is absent — a present-but-empty `filterParams` record is sent as an
empty object. -/
theorem claim_C5_request_omits_falsy (q : SqlReadQueryInfo) (t : JStr) :
    ((q.top = some 0 ∨ q.top = none) →
      (buildQueryRequest t none (some q)).top = none)
    ∧ ((q.fields = some [] ∨ q.fields = none) →
      (buildQueryRequest t none (some q)).select = none)
    ∧ ((q.filter = some [] ∨ q.filter = none) →
      (buildQueryRequest t none (some q)).filterString = none)
    ∧ ((q.skip = some 0 ∨ q.skip = none) →
      (buildQueryRequest t none (some q)).skip = none)
    ∧ ((q.orderBy = some [] ∨ q.orderBy = none) →
      (buildQueryRequest t none (some q)).orderBy = none)
    ∧ (((q.mainTableAlias = some [] ∨ q.mainTableAlias = none) ∧
        (extractNameAndAlias t).aliasName = none) →
      (buildQueryRequest t none (some q)).mainTableAlias = none)
    ∧ ((q.joins = some [] ∨ q.joins = none) →
      (buildQueryRequest t none (some q)).tablesJoin = none)
    ∧ (q.filterParams = none →
      (buildQueryRequest t none (some q)).filterParameters = none)
    ∧ (∀ ps, q.filterParams = some ps →
      (buildQueryRequest t none (some q)).filterParameters =
        some (toPrimitive ps)) := by
  refine ⟨?_, ?_, ?_, ?_, ?_, ?_, ?_, ?_, ?_⟩
  · rintro (h | h) <;> simp [buildQueryRequest, numOrUndefined, h]
  · rintro (h | h) <;> simp [buildQueryRequest, h]
  · rintro (h | h) <;> simp [buildQueryRequest, strOrUndefined, h]
  · rintro (h | h) <;> simp [buildQueryRequest, numOrUndefined, h]
  · rintro (h | h) <;> simp [buildQueryRequest, strOrUndefined, h]
  · rintro ⟨h1 | h1, h2⟩ <;>
      simp [buildQueryRequest, strOrUndefined, jsOrStr, h1, h2]
  · rintro (h | h) <;> simp [buildQueryRequest, h]
  · intro h; simp [buildQueryRequest, h]
  · intro ps h; simp [buildQueryRequest, h]

/-- Witness for C5 (amended): a spec with `top = 0` translates to a
request without `top`. -/
theorem claim_C5_witness :
    (buildQueryRequest ("T".toList) none
        (some { top := some 0 })).top = none :=
  (claim_C5_request_omits_falsy { top := some 0 } ("T".toList)).1 (Or.inl rfl)

/-! ### Chunk specification lemmas -/

lemma chunksGo_nil (n fuel : Nat) : chunksGo n fuel ([] : List α) = [] := by
  cases fuel <;> rfl

lemma chunksGo_congr (n : Nat) (hn : 1 ≤ n) :
    ∀ (f1 f2 : Nat) (ys : List α), ys.length ≤ f1 → ys.length ≤ f2 →
      chunksGo n f1 ys = chunksGo n f2 ys := by
  intro f1
  induction f1 with
  | zero =>
    intro f2 ys h1 h2
    have hy : ys = [] := List.length_eq_zero.mp (Nat.le_zero.mp h1)
    subst hy
    simp [chunksGo_nil]
  | succ g ih =>
    intro f2 ys h1 h2
    cases ys with
    | nil => simp [chunksGo_nil]
    | cons x xs =>
      cases f2 with
      | zero => simp at h2
      | succ f =>
        show (x :: xs).take n :: chunksGo n g ((x :: xs).drop n) =
          (x :: xs).take n :: chunksGo n f ((x :: xs).drop n)
        congr 1
        apply ih
        · simp only [List.length_drop, List.length_cons]
          simp only [List.length_cons] at h1
          omega
        · simp only [List.length_drop, List.length_cons]
          simp only [List.length_cons] at h2
          omega

lemma chunks_cons (n : Nat) (hn : 1 ≤ n) (xs : List α) (hne : xs ≠ []) :
    chunks n xs = xs.take n :: chunks n (xs.drop n) := by
  cases xs with
  | nil => exact absurd rfl hne
  | cons x t =>
    show (x :: t).take n :: chunksGo n t.length ((x :: t).drop n) =
      (x :: t).take n :: chunksGo n ((x :: t).drop n).length ((x :: t).drop n)
    congr 1
    apply chunksGo_congr n hn
    · simp only [List.length_drop, List.length_cons]
      omega
    · exact Nat.le_refl _

lemma chunks_length (n : Nat) (hn : 1 ≤ n) :
    ∀ (fuel : Nat) (xs : List α), xs.length ≤ fuel →
      (chunks n xs).length = (xs.length + n - 1) / n := by
  intro fuel
  induction fuel with
  | zero =>
    intro xs h
    have hx : xs = [] := List.length_eq_zero.mp (Nat.le_zero.mp h)
    subst hx
    show ([] : List (List α)).length = (0 + n - 1) / n
    simp only [List.length_nil]
    rw [Nat.zero_add, Nat.div_eq_of_lt (by omega)]
  | succ f ih =>
    intro xs h
    cases xs with
    | nil =>
      show ([] : List (List α)).length = (0 + n - 1) / n
      simp only [List.length_nil]
      rw [Nat.zero_add, Nat.div_eq_of_lt (by omega)]
    | cons x t =>
      rw [chunks_cons n hn (x :: t) (by simp)]
      simp only [List.length_cons]
      rw [ih ((x :: t).drop n)
        (by simp only [List.length_drop, List.length_cons] at h ⊢; omega)]
      simp only [List.length_drop, List.length_cons]
      by_cases hle : t.length + 1 ≤ n
      · rw [show t.length + 1 - n = 0 from by omega]
        have h1 : (0 + n - 1) / n = 0 := Nat.div_eq_of_lt (by omega)
        have h2 : (t.length + 1 + n - 1) / n = 1 :=
          Nat.div_eq_of_lt_le (by omega) (by omega)
        rw [h1, h2]
      · rw [show t.length + 1 - n + n - 1 = t.length + 1 - 1 from by omega]
        rw [show t.length + 1 + n - 1 = (t.length + 1 - 1) + n from by omega]
        rw [Nat.add_div_right _ (by omega)]

lemma chunks_join (n : Nat) (hn : 1 ≤ n) :
    ∀ (fuel : Nat) (xs : List α), xs.length ≤ fuel →
      (chunks n xs).flatten = xs := by
  intro fuel
  induction fuel with
  | zero =>
    intro xs h
    have hx : xs = [] := List.length_eq_zero.mp (Nat.le_zero.mp h)
    subst hx
    rfl
  | succ f ih =>
    intro xs h
    cases xs with
    | nil => rfl
    | cons x t =>
      rw [chunks_cons n hn (x :: t) (by simp)]
      rw [List.flatten_cons]
      rw [ih ((x :: t).drop n)
        (by simp only [List.length_drop, List.length_cons] at h ⊢; omega)]
      exact List.take_append_drop n (x :: t)

/-! ### Batching-loop lemmas -/

lemma sum_map_take_le {Row : Type} (f : Row → Nat) (l : List Row) (k : Nat) :
    ((l.take k).map f).sum ≤ (l.map f).sum := by
  conv_rhs => rw [← List.take_append_drop k l]
  rw [List.map_append, List.sum_append]
  exact Nat.le_add_right _ _

lemma saveLoop_flush_step {Row : Type} (ctx : SaveCtx Row) (c : List Row) :
    ∀ (r2 b : List Row) (s : Nat) (sent : List (SaveRequestBody Row))
      (status : SqlSaveStatus),
      c ≠ [] →
      (∀ j : Nat, j + 1 < c.length → b.length + (j + 1) < ctx.maxRowsCount) →
      (∀ j : Nat, j + 1 < c.length →
        s + ((c.take (j + 1)).map ctx.rowSize).sum ≤ maxTableSize) →
      (r2 = [] ∨ ctx.maxRowsCount ≤ b.length + c.length) →
      saveLoop ctx (c ++ r2) b s sent status =
        if ctx.hasAbortController && ctx.aborted sent.length then
          (sent, .ok status)
        else
          match ctx.respond sent.length with
          | .error m => (sent ++ [mkBody ctx (b ++ c)], .error m)
          | .ok single =>
            saveLoop ctx r2 [] 0 (sent ++ [mkBody ctx (b ++ c)])
              (addStatus status single) := by
  induction c with
  | nil => intro r2 b s sent status hc _ _ _; exact absurd rfl hc
  | cons x c2 ih =>
    intro r2 b s sent status _ hcount hsize hflush
    cases hc2 : c2 with
    | nil =>
      subst hc2
      show saveLoop ctx (x :: r2) b s sent status = _
      simp only [saveLoop]
      have hcond : (r2.isEmpty ||
          decide (ctx.maxRowsCount ≤ (b ++ [x]).length) ||
          decide (maxTableSize < s + ctx.rowSize x)) = true := by
        rcases hflush with h | h
        · subst h; rfl
        · simp only [List.length_append, List.length_cons, List.length_nil]
          have : ctx.maxRowsCount ≤ b.length + 1 := by
            simpa using h
          simp [this]
      rw [if_pos hcond]
    | cons y c3 =>
      subst hc2
      show saveLoop ctx (x :: ((y :: c3) ++ r2)) b s sent status = _
      simp only [saveLoop]
      have hcount0 := hcount 0 (by simp)
      have hsize0 := hsize 0 (by simp)
      have hcond : ((((y :: c3) ++ r2).isEmpty ||
          decide (ctx.maxRowsCount ≤ (b ++ [x]).length) ||
          decide (maxTableSize < s + ctx.rowSize x)) = true) → False := by
        intro hcond
        simp only [List.cons_append, List.isEmpty_cons, Bool.false_or,
          Bool.or_eq_true, decide_eq_true_eq] at hcond
        rcases hcond with h | h
        · simp only [List.length_append, List.length_cons, List.length_nil] at h
          omega
        · simp only [List.take_succ_cons, List.take_zero, List.map_cons,
            List.map_nil, List.sum_cons, List.sum_nil] at hsize0
          omega
      rw [if_neg hcond]
      have hstep := ih r2 (b ++ [x]) (s + ctx.rowSize x) sent status
        (by simp)
        (fun j hj => by
          have := hcount (j + 1) (by simpa using Nat.succ_lt_succ hj)
          simp only [List.length_append, List.length_cons, List.length_nil]
          omega)
        (fun j hj => by
          have hs := hsize (j + 1) (by simpa using Nat.succ_lt_succ hj)
          simp only [List.take_succ_cons, List.map_cons, List.sum_cons] at hs ⊢
          omega)
        (by
          rcases hflush with h | h
          · exact Or.inl h
          · right
            simp only [List.length_append, List.length_cons, List.length_nil]
            simp only [List.length_cons] at h
            omega)
      have hgoal := hstep
      simp only [List.append_assoc, List.cons_append, List.nil_append] at hgoal
      exact hgoal

lemma saveLoop_first_chunk {Row : Type} (ctx : SaveCtx Row) (r : List Row)
    (sent : List (SaveRequestBody Row)) (status : SqlSaveStatus)
    (hr : r ≠ []) (hN : 1 ≤ ctx.maxRowsCount)
    (hsz : ((r.take ctx.maxRowsCount).map ctx.rowSize).sum ≤ maxTableSize) :
    saveLoop ctx r [] 0 sent status =
      if ctx.hasAbortController && ctx.aborted sent.length then
        (sent, .ok status)
      else
        match ctx.respond sent.length with
        | .error m =>
          (sent ++ [mkBody ctx (r.take ctx.maxRowsCount)], .error m)
        | .ok single =>
          saveLoop ctx (r.drop ctx.maxRowsCount) [] 0
            (sent ++ [mkBody ctx (r.take ctx.maxRowsCount)])
            (addStatus status single) := by
  have hc : r.take ctx.maxRowsCount ≠ [] := by
    intro h0
    rcases List.take_eq_nil_iff.mp h0 with h | h
    · omega
    · exact hr h
  have hstep := saveLoop_flush_step ctx (r.take ctx.maxRowsCount)
    (r.drop ctx.maxRowsCount) [] 0 sent status hc
    (fun j hj => by
      simp only [List.length_nil, List.length_take] at hj ⊢
      omega)
    (fun j hj => by
      have hle := sum_map_take_le ctx.rowSize (r.take ctx.maxRowsCount) (j + 1)
      omega)
    (by
      by_cases hlen : r.length ≤ ctx.maxRowsCount
      · exact Or.inl (List.drop_eq_nil_of_le hlen)
      · right
        simp only [List.length_nil, List.length_take]
        omega)
  rw [List.take_append_drop] at hstep
  simpa only [List.nil_append] using hstep

lemma saveLoop_chunks_ok {Row : Type} (ctx : SaveCtx Row)
    (stf : Nat → SqlSaveStatus)
    (hresp : ∀ k, ctx.respond k = .ok (stf k))
    (hab : ctx.hasAbortController = false) (hN : 1 ≤ ctx.maxRowsCount) :
    ∀ (fuel : Nat) (r : List Row), r.length ≤ fuel →
      (∀ c ∈ chunks ctx.maxRowsCount r,
        (c.map ctx.rowSize).sum ≤ maxTableSize) →
      ∀ (sent : List (SaveRequestBody Row)) (status : SqlSaveStatus),
        saveLoop ctx r [] 0 sent status =
          (sent ++ (chunks ctx.maxRowsCount r).map (mkBody ctx),
           .ok (runStatuses stf sent.length
             (chunks ctx.maxRowsCount r).length status)) := by
  intro fuel
  induction fuel with
  | zero =>
    intro r hlen _ sent status
    have hr : r = [] := List.length_eq_zero.mp (Nat.le_zero.mp hlen)
    subst hr
    show (sent, (Except.ok status : Except String SqlSaveStatus)) = _
    simp [chunks, chunksGo_nil, runStatuses]
  | succ f ih =>
    intro r hlen hsz sent status
    cases hr : r with
    | nil =>
      show (sent, (Except.ok status : Except String SqlSaveStatus)) = _
      simp [chunks, chunksGo_nil, runStatuses]
    | cons x t =>
      have hne : (x :: t) ≠ [] := by simp
      have hchunks := chunks_cons ctx.maxRowsCount hN (x :: t) hne
      have hz1 : (((x :: t).take ctx.maxRowsCount).map ctx.rowSize).sum ≤
          maxTableSize := by
        apply hsz
        rw [hr, hchunks]
        exact List.mem_cons_self _ _
      rw [saveLoop_first_chunk ctx (x :: t) sent status hne hN hz1]
      rw [hab]
      simp only [Bool.false_and, Bool.false_eq_true, if_false]
      rw [hresp sent.length]
      show saveLoop ctx ((x :: t).drop ctx.maxRowsCount) [] 0
          (sent ++ [mkBody ctx ((x :: t).take ctx.maxRowsCount)])
          (addStatus status (stf sent.length)) = _
      rw [ih ((x :: t).drop ctx.maxRowsCount)
        (by simp only [List.length_drop, List.length_cons]
            simp only [hr, List.length_cons] at hlen
            omega)
        (fun c hc => by
          apply hsz
          rw [hr, hchunks]
          exact List.mem_cons_of_mem _ hc)
        (sent ++ [mkBody ctx ((x :: t).take ctx.maxRowsCount)])
        (addStatus status (stf sent.length))]
      rw [hchunks]
      simp only [List.map_cons, List.length_cons, List.length_append,
        List.append_assoc, List.cons_append, List.nil_append]
      rfl

lemma saveLoop_abort_chunks {Row : Type} (ctx : SaveCtx Row)
    (stf : Nat → SqlSaveStatus)
    (hresp : ∀ k, ctx.respond k = .ok (stf k))
    (hA : ctx.hasAbortController = true) (hN : 1 ≤ ctx.maxRowsCount) :
    ∀ (m : Nat) (r : List Row) (sent : List (SaveRequestBody Row))
      (status : SqlSaveStatus),
      (∀ c ∈ chunks ctx.maxRowsCount r,
        (c.map ctx.rowSize).sum ≤ maxTableSize) →
      m < (chunks ctx.maxRowsCount r).length →
      (∀ j, j < m → ctx.aborted (sent.length + j) = false) →
      ctx.aborted (sent.length + m) = true →
      saveLoop ctx r [] 0 sent status =
        (sent ++ ((chunks ctx.maxRowsCount r).take m).map (mkBody ctx),
         .ok (runStatuses stf sent.length m status)) := by
  intro m
  induction m with
  | zero =>
    intro r sent status hsz hm _ habm
    have hr : r ≠ [] := by
      intro h0
      rw [h0] at hm
      simp [chunks, chunksGo_nil] at hm
    have hz1 : (((r).take ctx.maxRowsCount).map ctx.rowSize).sum ≤
        maxTableSize := by
      apply hsz
      rw [chunks_cons ctx.maxRowsCount hN r hr]
      exact List.mem_cons_self _ _
    rw [saveLoop_first_chunk ctx r sent status hr hN hz1]
    rw [hA]
    rw [Nat.add_zero] at habm
    rw [habm]
    simp [runStatuses]
  | succ m ih =>
    intro r sent status hsz hm hab0 habm
    have hr : r ≠ [] := by
      intro h0
      rw [h0] at hm
      simp [chunks, chunksGo_nil] at hm
    have hchunks := chunks_cons ctx.maxRowsCount hN r hr
    have hz1 : ((r.take ctx.maxRowsCount).map ctx.rowSize).sum ≤
        maxTableSize := by
      apply hsz
      rw [hchunks]
      exact List.mem_cons_self _ _
    rw [saveLoop_first_chunk ctx r sent status hr hN hz1]
    rw [hA]
    have hab00 : ctx.aborted sent.length = false := by
      have := hab0 0 (Nat.succ_pos m)
      rwa [Nat.add_zero] at this
    rw [hab00]
    simp only [Bool.and_false, Bool.false_eq_true, if_false]
    rw [hresp sent.length]
    show saveLoop ctx (r.drop ctx.maxRowsCount) [] 0
        (sent ++ [mkBody ctx (r.take ctx.maxRowsCount)])
        (addStatus status (stf sent.length)) = _
    rw [ih (r.drop ctx.maxRowsCount)
      (sent ++ [mkBody ctx (r.take ctx.maxRowsCount)])
      (addStatus status (stf sent.length))
      (fun c hc => by
        apply hsz
        rw [hchunks]
        exact List.mem_cons_of_mem _ hc)
      (by
        rw [hchunks] at hm
        simpa using Nat.lt_of_succ_lt_succ hm)
      (fun j hj => by
        have := hab0 (j + 1) (Nat.succ_lt_succ hj)
        simp only [List.length_append, List.length_cons, List.length_nil]
        rw [show sent.length + 1 + j = sent.length + (j + 1) from by omega]
        exact this)
      (by
        simp only [List.length_append, List.length_cons, List.length_nil]
        rw [show sent.length + 1 + m = sent.length + (m + 1) from by omega]
        exact habm)]
    rw [hchunks]
    simp only [List.take_succ_cons, List.map_cons, List.length_append,
      List.length_cons, List.length_nil, List.append_assoc,
      List.cons_append, List.nil_append]
    rfl

lemma saveLoop_bodies {Row : Type} (ctx : SaveCtx Row) :
    ∀ (r b : List Row) (s : Nat) (sent : List (SaveRequestBody Row))
      (status : SqlSaveStatus),
      ∀ x ∈ (saveLoop ctx r b s sent status).1,
        x ∈ sent ∨ ∃ rows : List Row, x = mkBody ctx rows := by
  intro r
  induction r with
  | nil => intro b s sent status x hx; exact Or.inl hx
  | cons row rest ih =>
    intro b s sent status x hx
    simp only [saveLoop] at hx
    split at hx
    · split at hx
      · exact Or.inl hx
      · split at hx
        · rcases List.mem_append.mp hx with h | h
          · exact Or.inl h
          · right
            exact ⟨b ++ [row], by simpa using h⟩
        · rcases ih [] 0 (sent ++ [mkBody ctx (b ++ [row])]) _ x hx
            with h | h
          · rcases List.mem_append.mp h with h2 | h2
            · exact Or.inl h2
            · right
              exact ⟨b ++ [row], by simpa using h2⟩
          · exact Or.inr h
    · exact ih (b ++ [row]) (s + ctx.rowSize row) sent status x hx

lemma sum_range_shift (stf : Nat → SqlSaveStatus) (fld : SqlSaveStatus → Nat)
    (k start : Nat) :
    ((List.range (k + 1)).map (fun i => fld (stf (start + i)))).sum =
      fld (stf start) +
        ((List.range k).map (fun i => fld (stf (start + 1 + i)))).sum := by
  rw [List.range_succ_eq_map]
  simp only [List.map_cons, Nat.add_zero, List.sum_cons, List.map_map]
  refine congrArg₂ HAdd.hAdd rfl (congrArg List.sum ?_)
  apply List.map_congr_left
  intro i _
  simp only [Function.comp_apply]
  have h : start + Nat.succ i = start + 1 + i := by omega
  rw [h]

lemma runStatuses_components (stf : Nat → SqlSaveStatus) :
    ∀ (k start : Nat) (acc : SqlSaveStatus),
      runStatuses stf start k acc =
        { inserted := acc.inserted +
            ((List.range k).map (fun i => (stf (start + i)).inserted)).sum,
          updated := acc.updated +
            ((List.range k).map (fun i => (stf (start + i)).updated)).sum,
          deleted := acc.deleted +
            ((List.range k).map (fun i => (stf (start + i)).deleted)).sum } := by
  intro k
  induction k with
  | zero =>
    intro start acc
    simp [runStatuses]
  | succ k ih =>
    intro start acc
    show runStatuses stf (start + 1) k (addStatus acc (stf start)) = _
    rw [ih]
    rw [sum_range_shift stf SqlSaveStatus.inserted k start,
      sum_range_shift stf SqlSaveStatus.updated k start,
      sum_range_shift stf SqlSaveStatus.deleted k start]
    simp only [SqlSaveStatus.mk.injEq, addStatus]
    refine ⟨by omega, by omega, by omega⟩

/-! ### Batch persistence claims (C1, C2, C7, C8) -/

lemma map_bodyRows_mkBody {Row : Type} (ctx : SaveCtx Row)
    (cs : List (List Row)) : (cs.map (mkBody ctx)).map bodyRows = cs := by
  induction cs with
  | nil => rfl
  | cons c cs ih =>
    simp only [List.map_cons]
    rw [ih]
    rfl

/-- C1: for a non-empty row collection and fixed batch size `N`, when no
batch's cumulative serialized size exceeds the 1,500,000 ceiling, no
cancellation is raised and every request succeeds, `saveData` issues
exactly `⌈rowCount / N⌉` requests whose batches walk the rows in
original order (their concatenation is the original collection), and
returns the component-wise sum of all per-batch statuses. -/
theorem claim_C1_saveData_batching {Row : Type} (rowSize : Row → Nat)
    (stf : Nat → SqlSaveStatus) (fieldNames : List JStr) (rows : List Row)
    (del : Option (List JRecord)) (method : Option String) (N : Nat)
    (pk : Option (List JStr))
    (hrows : rows ≠ []) (hN : N ≠ 0)
    (hsz : ∀ c ∈ chunks N rows, (c.map rowSize).sum ≤ maxTableSize) :
    (saveData rowSize (fun k => .ok (stf k)) false (fun _ => false)
        fieldNames (some rows) del
        (some { method := method, batchSize := some N,
                primaryKeys := pk })).1.length = (rows.length + N - 1) / N
    ∧ (saveData rowSize (fun k => .ok (stf k)) false (fun _ => false)
        fieldNames (some rows) del
        (some { method := method, batchSize := some N,
                primaryKeys := pk })).1.map bodyRows = chunks N rows
    ∧ ((saveData rowSize (fun k => .ok (stf k)) false (fun _ => false)
        fieldNames (some rows) del
        (some { method := method, batchSize := some N,
                primaryKeys := pk })).1.map bodyRows).flatten = rows
    ∧ (saveData rowSize (fun k => .ok (stf k)) false (fun _ => false)
        fieldNames (some rows) del
        (some { method := method, batchSize := some N,
                primaryKeys := pk })).2 =
      .ok { inserted := ((List.range ((rows.length + N - 1) / N)).map
              (fun k => (stf k).inserted)).sum,
            updated := ((List.range ((rows.length + N - 1) / N)).map
              (fun k => (stf k).updated)).sum,
            deleted := ((List.range ((rows.length + N - 1) / N)).map
              (fun k => (stf k).deleted)).sum } := by
  cases rows with
  | nil => exact absurd rfl hrows
  | cons x t =>
    have hN1 : 1 ≤ N := Nat.one_le_iff_ne_zero.mpr hN
    have hmain : saveData rowSize (fun k => Except.ok (stf k)) false
        (fun _ => false) fieldNames (some (x :: t)) del
        (some { method := method, batchSize := some N, primaryKeys := pk }) =
      saveLoop
        (SaveCtx.mk rowSize (fun k => Except.ok (stf k)) false (fun _ => false)
          (resolveMaxRowsCount (some { method := method, batchSize := some N, primaryKeys := pk }))
          fieldNames (del.map (fun l => l.map toPrimitive)) pk)
        (x :: t) [] 0 [] zeroStatus := rfl
    have hproj : resolveMaxRowsCount
        (some { method := method, batchSize := some N, primaryKeys := pk }) =
        N := by
      simp [resolveMaxRowsCount, hN]
    have hctx : SaveCtx.mk rowSize (fun k => Except.ok (stf k)) false
        (fun _ => false)
        (resolveMaxRowsCount (some { method := method, batchSize := some N, primaryKeys := pk }))
        fieldNames (del.map (fun l => l.map toPrimitive)) pk =
      SaveCtx.mk rowSize (fun k => Except.ok (stf k)) false (fun _ => false)
        N fieldNames (del.map (fun l => l.map toPrimitive)) pk := by
      rw [hproj]
    rw [hmain, hctx]
    rw [saveLoop_chunks_ok _ stf (fun _ => rfl) rfl hN1 (x :: t).length (x :: t)
      (Nat.le_refl _) hsz [] zeroStatus]
    have hbr := map_bodyRows_mkBody
      (SaveCtx.mk rowSize (fun k => Except.ok (stf k)) false (fun _ => false)
        N fieldNames (del.map (fun l => l.map toPrimitive)) pk)
      (chunks N (x :: t))
    have hlen := chunks_length N hN1 (x :: t).length (x :: t) (Nat.le_refl _)
    refine ⟨?_, ?_, ?_, ?_⟩
    · simp only [List.nil_append, List.length_map]
      exact hlen
    · simp only [List.nil_append]
      exact hbr
    · simp only [List.nil_append]
      rw [hbr]
      exact chunks_join N hN1 (x :: t).length (x :: t) (Nat.le_refl _)
    · simp only [List.nil_append]
      rw [runStatuses_components]
      rw [hlen]
      simp only [zeroStatus, List.length_nil, Nat.zero_add]

/-- Witness for C1: five rows with batch size 2 issue exactly
`⌈5/2⌉ = 3` requests. -/
theorem claim_C1_witness :
    (saveData (fun _ : Nat => 1) (fun k => Except.ok ⟨k + 1, 1, 0⟩) false
        (fun _ => false) [] (some [10, 20, 30, 40, 50]) none
        (some { method := none, batchSize := some 2,
                primaryKeys := none })).1.length =
      ([10, 20, 30, 40, 50].length + 2 - 1) / 2 :=
  (claim_C1_saveData_batching (fun _ : Nat => 1) (fun k => ⟨k + 1, 1, 0⟩) []
    [10, 20, 30, 40, 50] none none 2 none (by decide) (by decide)
    (by decide)).1

/-- C2: when `items` is empty or absent, a non-empty `itemsToDelete`
produces exactly one request whose body carries only the coerced delete
rows (no `tableData`, no `primaryKeys`) and whose server status is
returned unchanged; when `itemsToDelete` is also empty or absent, no
request is issued and the zero status is returned. -/
theorem claim_C2_saveData_delete_only {Row : Type} (rowSize : Row → Nat)
    (respond : Nat → Except String SqlSaveStatus) (hasA : Bool)
    (ab : Nat → Bool) (fieldNames : List JStr)
    (saveOptions : Option SqlSaveOptions) (items : Option (List Row))
    (hitems : items = none ∨ items = some []) :
    (∀ (d : JRecord) (ds : List JRecord) (st : SqlSaveStatus),
      respond 0 = .ok st →
      saveData rowSize respond hasA ab fieldNames items (some (d :: ds))
          saveOptions =
        ([{ tableData := none,
            itemsToDelete := some ((d :: ds).map toPrimitive),
            primaryKeys := none }], .ok st))
    ∧ (∀ del : Option (List JRecord), (del = none ∨ del = some []) →
      saveData rowSize respond hasA ab fieldNames items del saveOptions =
        ([], .ok { inserted := 0, updated := 0, deleted := 0 })) := by
  constructor
  · intro d ds st hr
    rcases hitems with h | h <;> subst h <;>
      · simp only [saveData]
        rw [hr]
        rfl
  · intro del hdel
    rcases hitems with h | h <;> rcases hdel with h2 | h2 <;> subst h <;>
      subst h2 <;> rfl

/-- Witness for C2: a delete-only call with one delete row issues one
request and returns the server status unchanged. -/
theorem claim_C2_witness :
    saveData (fun _ : Nat => 1) (fun _ => Except.ok ⟨0, 0, 7⟩) false
        (fun _ => false) [] none (some [[("id", ScalarV.vNum 1)]]) none =
      ([{ tableData := none,
          itemsToDelete := some (([[("id", ScalarV.vNum 1)]] :
            List JRecord).map toPrimitive),
          primaryKeys := none }], .ok ⟨0, 0, 7⟩) :=
  (claim_C2_saveData_delete_only (fun _ : Nat => 1)
      (fun _ => Except.ok ⟨0, 0, 7⟩) false (fun _ => false) [] none none
      (Or.inl rfl)).1 [("id", ScalarV.vNum 1)] [] ⟨0, 0, 7⟩ rfl

/-- C7: if the cancellation signal is raised from flush boundary `k0`
on (with `k0` batches still to send), the loop sends exactly the first
`k0` batches — that batch and all later ones are never issued — and
returns the status accumulated from the batches sent before
cancellation. -/
theorem claim_C7_saveData_cancellation {Row : Type} (rowSize : Row → Nat)
    (stf : Nat → SqlSaveStatus) (fieldNames : List JStr) (rows : List Row)
    (del : Option (List JRecord)) (method : Option String) (N k0 : Nat)
    (pk : Option (List JStr))
    (hN : N ≠ 0)
    (hsz : ∀ c ∈ chunks N rows, (c.map rowSize).sum ≤ maxTableSize)
    (hk : k0 < (chunks N rows).length) :
    (saveData rowSize (fun k => Except.ok (stf k)) true
        (fun k => decide (k0 ≤ k)) fieldNames (some rows) del
        (some { method := method, batchSize := some N,
                primaryKeys := pk })).1.map bodyRows =
      (chunks N rows).take k0
    ∧ (saveData rowSize (fun k => Except.ok (stf k)) true
        (fun k => decide (k0 ≤ k)) fieldNames (some rows) del
        (some { method := method, batchSize := some N,
                primaryKeys := pk })).1.length = k0
    ∧ (saveData rowSize (fun k => Except.ok (stf k)) true
        (fun k => decide (k0 ≤ k)) fieldNames (some rows) del
        (some { method := method, batchSize := some N,
                primaryKeys := pk })).2 =
      .ok { inserted := ((List.range k0).map
              (fun k => (stf k).inserted)).sum,
            updated := ((List.range k0).map
              (fun k => (stf k).updated)).sum,
            deleted := ((List.range k0).map
              (fun k => (stf k).deleted)).sum } := by
  cases rows with
  | nil =>
    rw [show chunks N ([] : List Row) = [] from rfl] at hk
    simp at hk
  | cons x t =>
    have hN1 : 1 ≤ N := Nat.one_le_iff_ne_zero.mpr hN
    have hmain : saveData rowSize (fun k => Except.ok (stf k)) true
        (fun k => decide (k0 ≤ k)) fieldNames (some (x :: t)) del
        (some { method := method, batchSize := some N, primaryKeys := pk }) =
      saveLoop
        (SaveCtx.mk rowSize (fun k => Except.ok (stf k)) true
          (fun k => decide (k0 ≤ k))
          (resolveMaxRowsCount (some { method := method, batchSize := some N, primaryKeys := pk }))
          fieldNames (del.map (fun l => l.map toPrimitive)) pk)
        (x :: t) [] 0 [] zeroStatus := rfl
    have hproj : resolveMaxRowsCount
        (some { method := method, batchSize := some N, primaryKeys := pk }) =
        N := by
      simp [resolveMaxRowsCount, hN]
    have hctx : SaveCtx.mk rowSize (fun k => Except.ok (stf k)) true
        (fun k => decide (k0 ≤ k))
        (resolveMaxRowsCount (some { method := method, batchSize := some N, primaryKeys := pk }))
        fieldNames (del.map (fun l => l.map toPrimitive)) pk =
      SaveCtx.mk rowSize (fun k => Except.ok (stf k)) true
        (fun k => decide (k0 ≤ k)) N fieldNames
        (del.map (fun l => l.map toPrimitive)) pk := by
      rw [hproj]
    rw [hmain, hctx]
    rw [saveLoop_abort_chunks _ stf (fun _ => rfl) rfl hN1 k0 (x :: t) []
      zeroStatus hsz hk
      (fun j hj => by
        simp only [List.length_nil, Nat.zero_add, decide_eq_false_iff_not]
        omega)
      (by simp)]
    have hbr := map_bodyRows_mkBody
      (SaveCtx.mk rowSize (fun k => Except.ok (stf k)) true
        (fun k => decide (k0 ≤ k)) N fieldNames
        (del.map (fun l => l.map toPrimitive)) pk)
      ((chunks N (x :: t)).take k0)
    refine ⟨?_, ?_, ?_⟩
    · simp only [List.nil_append]
      exact hbr
    · simp only [List.nil_append, List.length_map, List.length_take]
      omega
    · simp only [List.nil_append]
      rw [runStatuses_components]
      simp only [zeroStatus, List.length_nil, Nat.zero_add]

/-- Witness for C7: with the signal raised from boundary 1 on, only the
first of three due batches is sent. -/
theorem claim_C7_witness :
    (saveData (fun _ : Nat => 1) (fun k => Except.ok ⟨k + 1, 1, 0⟩) true
        (fun k => decide (1 ≤ k)) [] (some [10, 20, 30, 40, 50]) none
        (some { method := none, batchSize := some 2,
                primaryKeys := none })).1.map bodyRows =
      (chunks 2 [10, 20, 30, 40, 50]).take 1 :=
  (claim_C7_saveData_cancellation (fun _ : Nat => 1) (fun k => ⟨k + 1, 1, 0⟩)
    [] [10, 20, 30, 40, 50] none none 2 1 none (by decide) (by decide)
    (by decide)).1

/-- C8: every batch request issued while chunking a non-empty items
collection carries the complete coerced `itemsToDelete` list and the
resolved `primaryKeys` — the full delete list is repeated on every
batch. -/
theorem claim_C8_saveData_full_delete_list {Row : Type} (rowSize : Row → Nat)
    (respond : Nat → Except String SqlSaveStatus) (hasA : Bool)
    (ab : Nat → Bool) (fieldNames : List JStr) (rows : List Row)
    (delList : List JRecord) (saveOptions : Option SqlSaveOptions)
    (hrows : rows ≠ []) :
    ∀ body ∈ (saveData rowSize respond hasA ab fieldNames (some rows)
        (some delList) saveOptions).1,
      body.itemsToDelete = some (delList.map toPrimitive)
      ∧ body.primaryKeys =
          (match saveOptions with
           | some o => o.primaryKeys
           | none => none) := by
  cases rows with
  | nil => exact absurd rfl hrows
  | cons x t =>
    have hmain : saveData rowSize respond hasA ab fieldNames
        (some (x :: t)) (some delList) saveOptions =
      saveLoop
        (SaveCtx.mk rowSize respond hasA ab
          (resolveMaxRowsCount saveOptions) fieldNames
          (some (delList.map toPrimitive))
          (match saveOptions with
           | some o => o.primaryKeys
           | none => none))
        (x :: t) [] 0 [] zeroStatus := rfl
    intro body hb
    rw [hmain] at hb
    rcases saveLoop_bodies _ (x :: t) [] 0 [] zeroStatus body hb with h | h
    · simp at h
    · rcases h with ⟨rws, rfl⟩
      exact ⟨rfl, rfl⟩

/-- Witness for C8: the first of two batch requests carries the full
delete list and the (absent) primary keys. -/
theorem claim_C8_witness :
    ({ tableData := some ⟨[], [10, 20]⟩,
       itemsToDelete := some (([[("id", ScalarV.vNum 1)]] :
         List JRecord).map toPrimitive),
       primaryKeys := none } : SaveRequestBody Nat).itemsToDelete =
      some (([[("id", ScalarV.vNum 1)]] : List JRecord).map toPrimitive)
    ∧ ({ tableData := some ⟨[], [10, 20]⟩,
         itemsToDelete := some (([[("id", ScalarV.vNum 1)]] :
           List JRecord).map toPrimitive),
         primaryKeys := none } : SaveRequestBody Nat).primaryKeys = none :=
  claim_C8_saveData_full_delete_list (fun _ : Nat => 1)
    (fun _ => Except.ok ⟨1, 0, 0⟩) false (fun _ => false) [] [10, 20, 30]
    [[("id", ScalarV.vNum 1)]]
    (some { method := none, batchSize := some 2, primaryKeys := none })
    (by decide) _ (by decide)

/-- C10: with the fourth argument absent, `save` treats an array third
argument as the delete list (no save options applied) and a non-array
object third argument as the save options (no delete rows sent); both
cases forward to the same underlying `saveData`. -/
theorem claim_C10_save_overload {Row : Type} (rowSize : Row → Nat)
    (respond : Nat → Except String SqlSaveStatus) (hasA : Bool)
    (ab : Nat → Bool) (fieldNames : List JStr) (items : Option (List Row)) :
    (∀ arr : List JRecord,
      save rowSize respond hasA ab fieldNames items (some (.inl arr)) none =
        saveData rowSize respond hasA ab fieldNames items (some arr) none)
    ∧ (∀ opts : SqlSaveOptions,
      save rowSize respond hasA ab fieldNames items (some (.inr opts)) none =
        saveData rowSize respond hasA ab fieldNames items none (some opts)) :=
  ⟨fun _ => rfl, fun _ => rfl⟩

end SqlDataApiClient
